import Mathlib

/-!
Verification development for the wildduck imap-core indexer
(`getSize`, `rebuild`, `resolveContentNode`, `getContents`, `filterHeaders`,
module-level `filterHeaders`).

JavaScript strings are embedded as `List Char` ("binary"-encoded, one char
per byte, which matches `new Buffer(str, 'binary').length === str.length`).
Absent (`undefined`) JS object fields are embedded as `Option` (the two
recursive fields use small dedicated sum types so that all recursion is
structural); JS string truthiness is non-emptiness; reading a property of
`undefined` is a thrown `TypeError`, embedded as `Except.error ()`; the JS
number `NaN` (arising from `size += undefined`) is embedded as
`none : Option Nat`.
-/

set_option maxRecDepth 40000

/-- Byte strings of the JS source, embedded as lists of characters. -/
abbrev Str : Type := List Char

/-- Literal helper: the byte string of a Lean string literal. -/
def strLit (s : String) : Str := s.toList

/-- JS truthiness of a possibly-undefined string: `undefined` and `''` are falsy. -/
def jsT : Option Str → Bool
  | none => false
  | some s => !s.isEmpty

/-- JS string coercion of a possibly-undefined string (`'--' + undefined` is `'--undefined'`). -/
def jsToStr : Option Str → Str
  | none => strLit "undefined"
  | some s => s

/-- Lower-casing of a byte string, as JS `toLowerCase` on ASCII data. -/
def lowerStr (s : Str) : Str := s.map Char.toLower

/-- Whether `p` is an initial segment of `s` (used to embed an anchored regex test). -/
def strStarts : Str → Str → Bool
  | [], _ => true
  | _ :: _, [] => false
  | p :: ps, c :: cs => p == c && strStarts ps cs

/-- The test `/^X-Attachment-Stream/i.test(header)` from `filterHeaders`. -/
def xStreamTest (l : Str) : Bool := strStarts (strLit "x-attachment-stream") (lowerStr l)

/-- The module-level `filterHeaders(headers)`: normalizes an absent header list
to empty and drops every line matching the internal attachment-marker prefix.
(The JS wrap-a-lone-string branch is unreachable here since callers pass the
`header` field, which is an array when present.) -/
def filterHeaders (headers : Option (List Str)) : List Str :=
  (headers.getD []).filter (fun h => !xStreamTest h)

/-- The `\r\n` join used throughout (`array.join('\r\n')`). -/
def joinCRLF (ls : List Str) : Str := List.intercalate (strLit "\r\n") ls

/-- JS `str.trim()`. -/
def trimStr (s : Str) : Str :=
  ((s.dropWhile Char.isWhitespace).reverse.dropWhile Char.isWhitespace).reverse

/-- Parsed-header fields consulted by the indexer: the two internal synthetic
keys `x-attachment-stream-url` and `x-attachment-stream-encoded`. -/
structure ParsedHeader where
  xUrl : Option Str
  xEncoded : Option Str
deriving Repr, DecidableEq

mutual

/-- A parsed MIME-tree node as the indexer reads it, with fields in source
order: `header`, `parsedHeader`, `body`, `boundary`, `childNodes`, `message`,
`size`. Every field an absent (`undefined`) JS property may hold is optional. -/
inductive MimeNode : Type where
  | mk : Option (List Str) → Option ParsedHeader → Option Str → Option Str →
         ChildField → MsgField → Option Nat → MimeNode

/-- The `childNodes` property: `undefined`, or an array of nodes. -/
inductive ChildField : Type where
  | undef
  | arr (cs : MimeList)

/-- A JS array of MIME nodes. -/
inductive MimeList : Type where
  | nil
  | cons (hd : MimeNode) (tl : MimeList)

/-- The `message` property: `undefined`, or a nested `message/rfc822` node. -/
inductive MsgField : Type where
  | undef
  | node (m : MimeNode)

end

/-- Raw header lines of a node. -/
def MimeNode.header : MimeNode → Option (List Str)
  | .mk h _ _ _ _ _ _ => h

/-- The `parsedHeader` map of a node (reading it while absent throws). -/
def MimeNode.parsedHeader : MimeNode → Option ParsedHeader
  | .mk _ p _ _ _ _ _ => p

/-- Locally held body content of a node. -/
def MimeNode.body : MimeNode → Option Str
  | .mk _ _ b _ _ _ _ => b

/-- Multipart boundary token of a node. -/
def MimeNode.boundary : MimeNode → Option Str
  | .mk _ _ _ b _ _ _ => b

/-- Child node list of a node, `none` when `childNodes` is not an array. -/
def MimeNode.childNodes : MimeNode → Option MimeList
  | .mk _ _ _ _ .undef _ _ => none
  | .mk _ _ _ _ (.arr cs) _ _ => some cs

/-- Nested `message/rfc822` subtree of a node. -/
def MimeNode.message : MimeNode → Option MimeNode
  | .mk _ _ _ _ _ .undef _ => none
  | .mk _ _ _ _ _ (.node m) _ => some m

/-- Declared content byte length of a node. -/
def MimeNode.size : MimeNode → Option Nat
  | .mk _ _ _ _ _ _ s => s

/-- Number of elements of a node array. -/
def MimeList.length : MimeList → Nat
  | .nil => 0
  | .cons _ tl => tl.length + 1

/-- Zero-based element lookup in a node array. -/
def MimeList.get? : MimeList → Nat → Option MimeNode
  | .nil, _ => none
  | .cons hd _, 0 => some hd
  | .cons _ tl, k + 1 => tl.get? k

/-- JS array indexing with a possibly negative index (`arr[-1]` is `undefined`). -/
def mimeGetInt (cs : MimeList) (i : Int) : Option MimeNode :=
  match i with
  | .ofNat k => cs.get? k
  | .negSucc _ => none

/-- Mutable state of the `getSize` walk: the running byte count (`none` is JS
`NaN`) and the `first` flag controlling `\r\n` separators. -/
structure SizeSt where
  size : Option Nat
  first : Bool
deriving Repr, DecidableEq

/-- JS `+` on possibly-NaN numbers. -/
def jsAdd : Option Nat → Option Nat → Option Nat
  | some a, some b => some (a + b)
  | _, _ => none

/-- The `append(data, force)` closure of `getSize`: when `data` is truthy or
`force` is set, add the length of the separator-prefixed data and clear
`first`; otherwise do nothing. -/
def szAppend (st : SizeSt) (data : Str) (force : Bool) : SizeSt :=
  if force || !data.isEmpty then
    { size := st.size.map (fun k => k + (cond st.first 0 2) + data.length), first := false }
  else st

/-- Lines 70-73 of the source: `append(false, true); size += node.size;`. -/
def szBump (st : SizeSt) (sz : Option Nat) : SizeSt :=
  let st1 := szAppend st [] true
  { st1 with size := jsAdd st1.size sz }

/-- The `finalize()` closure of the `getSize` walk: closing boundary line when
the node has a truthy boundary, then the bare `append()` (a no-op here since
`getSize` has no `remainder`). -/
def szFinalize (bnd : Option Str) (st : SizeSt) : SizeSt :=
  let st := if jsT bnd then
    szAppend st (strLit "--" ++ bnd.getD [] ++ strLit "--\r\n") false
  else st
  szAppend st [] false

/-- The between-siblings `append('--' + node.boundary)` of the `getSize`
child loop, applied when more children remain. -/
def sibSepSz (bnd : Option Str) (rest : MimeList) (st : SizeSt) : SizeSt :=
  match rest with
  | .nil => st
  | .cons _ _ => szAppend st (strLit "--" ++ jsToStr bnd) false

mutual

/-- The recursive `walk(node, next)` of `Indexer.getSize`. `hdrOn` mirrors
`!textOnly || !root` (children are always walked with the header on). Reading
`parsedHeader` of a node that lacks it throws, exactly where the source
evaluates `node.parsedHeader['x-attachment-stream-url']` (line 70 when `body`
is falsy, line 77 when `boundary` is falsy). -/
def sizeWalk (hdrOn : Bool) : MimeNode → SizeSt → Except Unit SizeSt
  | .mk hdr ph body bnd cf _ sz, st =>
    let st := if hdrOn then szAppend st (joinCRLF (filterHeaders hdr) ++ strLit "\r\n") false else st
    let step : Except Unit SizeSt :=
      if jsT body then .ok (szBump st sz)
      else match ph with
        | none => .error ()
        | some p => if jsT p.xUrl then .ok (szBump st sz) else .ok st
    match step with
    | .error e => .error e
    | .ok st =>
      if jsT bnd then
        let st := szAppend st (strLit "--" ++ bnd.getD []) false
        match cf with
        | .arr cs =>
          (match sizeWalkChildren bnd cs st with
           | .error e => .error e
           | .ok st => .ok (szFinalize bnd st))
        | .undef => .ok (szFinalize bnd st)
      else
        match ph with
        | none => .error ()
        | some p =>
          if jsT p.xUrl then .ok (szFinalize bnd st)
          else match cf with
            | .arr cs =>
              (match sizeWalkChildren bnd cs st with
               | .error e => .error e
               | .ok st => .ok (szFinalize bnd st))
            | .undef => .ok (szFinalize bnd st)

/-- The `processChildNodes` loop of `Indexer.getSize`: walk each child, and
between two successive children append `'--' + node.boundary` (the parent's
boundary, JS-coerced, so `'--undefined'` when the parent has none). -/
def sizeWalkChildren (bnd : Option Str) : MimeList → SizeSt → Except Unit SizeSt
  | .nil, st => .ok st
  | .cons c rest, st =>
    match sizeWalk true c st with
    | .error e => .error e
    | .ok st => sizeWalkChildren bnd rest (sibSepSz bnd rest st)

end

/-- The exposed `Indexer.getSize(mimeTree, textOnly)`: dry-run byte size of the
serialized tree. `Except.error ()` is a thrown `TypeError`; an `ok none` is
the JS result `NaN`. -/
def getSize (n : MimeNode) (textOnly : Bool) : Except Unit (Option Nat) :=
  (sizeWalk (!textOnly) n { size := some 0, first := true }).map SizeSt.size

/-- Mutable state of the `rebuild` walk: bytes written to the output stream so
far, the `first` flag, and the pending `remainder` (the current node's body,
flushed by the next `append`). -/
structure RbSt where
  out : Str
  first : Bool
  remainder : Str
deriving Repr, DecidableEq

/-- The `append(data, force)` closure of `rebuild`: when the remainder or the
data is truthy, or `force` is set, write separator + remainder + data; the
remainder is cleared unconditionally. -/
def rbAppend (st : RbSt) (data : Str) (force : Bool) : RbSt :=
  if force || !st.remainder.isEmpty || !data.isEmpty then
    { out := st.out ++ (cond st.first [] (strLit "\r\n")) ++ st.remainder ++ data,
      first := false, remainder := [] }
  else { st with remainder := [] }

/-- The `finalize()` closure of the `rebuild` walk: closing boundary line when
the node has a truthy boundary, then the bare `append()` (which flushes a
pending remainder). -/
def rbFinalize (bnd : Option Str) (st : RbSt) : RbSt :=
  let st := if jsT bnd then
    rbAppend st (strLit "--" ++ bnd.getD [] ++ strLit "--\r\n") false
  else st
  rbAppend st [] false

/-- Modelled from the spec: the `LengthLimiter` collaborator
(`../length-limiter`, not part of this repository snapshot) wraps a byte
stream and "passes through at most N bytes", completing at N bytes or source
exhaustion, whichever comes first. An undefined limit is modelled as
pass-through (never reached by well-formed nodes, whose `size` is declared). -/
def lengthLimiter (n : Option Nat) (s : Str) : Str :=
  match n with
  | some k => s.take k
  | none => s

/-- The `streamUrl.replace(/^<|>$/g, '')` normalization: strip one leading `<`
and one trailing `>`. -/
def stripAngles (s : Str) : Str :=
  let s1 := match s with
    | '<' :: r => r
    | s => s
  match s1.reverse with
  | '>' :: r => r.reverse
  | _ => s1

/-- The `/^\s*YES\s*$/i.test(...)` check on `x-attachment-stream-encoded`
(`undefined` coerces to the string `"undefined"`, which does not match). -/
def jsYesTest : Option Str → Bool
  | none => false
  | some s => lowerStr (trimStr s) == strLit "yes"

/-- The byte stream entering the length limiter for an external-content node:
the fetched bytes, base64-transcoded through the encoder stage unless
`x-attachment-stream-encoded` affirmatively matches YES. -/
def encContent (fetch enc : Str → Str) (p : ParsedHeader) : Str :=
  if jsYesTest p.xEncoded then fetch (stripAngles (p.xUrl.getD []))
  else enc (fetch (stripAngles (p.xUrl.getD [])))

/-- The between-siblings `append('--' + node.boundary)` of the `rebuild`
child loop, applied when more children remain. -/
def sibSepRb (bnd : Option Str) (rest : MimeList) (st : RbSt) : RbSt :=
  match rest with
  | .nil => st
  | .cons _ _ => rbAppend st (strLit "--" ++ jsToStr bnd) false

mutual

/-- The recursive `walk(node, next)` of `Indexer.rebuild`, producing the bytes
written to the output stream. `fetch` is the external attachment fetcher
collaborator and `enc` the streaming base64 encoder stage, both given as
byte-string transformers. In the external-content branch the fetched bytes
are (optionally) encoded, then capped by the length limiter, and piped raw to
the output (bypassing `append`, so they touch neither `first` nor
`remainder`); the walk then finalizes and returns without visiting children. -/
def rebuildWalk (fetch enc : Str → Str) (hdrOn : Bool) : MimeNode → RbSt → Except Unit RbSt
  | .mk hdr ph body bnd cf _ sz, st =>
    let st := if hdrOn then rbAppend st (joinCRLF (filterHeaders hdr) ++ strLit "\r\n") false else st
    let st := { st with remainder := body.getD [] }
    if jsT bnd then
      let st := rbAppend st (strLit "--" ++ bnd.getD []) false
      match cf with
      | .arr cs =>
        (match rebuildWalkChildren fetch enc bnd cs st with
         | .error e => .error e
         | .ok st => .ok (rbFinalize bnd st))
      | .undef => .ok (rbFinalize bnd st)
    else
      match ph with
      | none => .error ()
      | some p =>
        if jsT p.xUrl then
          let st := rbAppend st [] true
          let content := lengthLimiter sz (encContent fetch enc p)
          let st := { st with out := st.out ++ content }
          .ok (rbFinalize bnd st)
        else match cf with
          | .arr cs =>
            (match rebuildWalkChildren fetch enc bnd cs st with
             | .error e => .error e
             | .ok st => .ok (rbFinalize bnd st))
          | .undef => .ok (rbFinalize bnd st)

/-- The `processChildNodes` loop of `Indexer.rebuild` (the `setImmediate`
between siblings is pure scheduling and does not affect the byte stream). -/
def rebuildWalkChildren (fetch enc : Str → Str) (bnd : Option Str) :
    MimeList → RbSt → Except Unit RbSt
  | .nil, st => .ok st
  | .cons c rest, st =>
    match rebuildWalk fetch enc true c st with
    | .error e => .error e
    | .ok st => rebuildWalkChildren fetch enc bnd rest (sibSepRb bnd rest st)

end

/-- Total bytes emitted on the output stream by `Indexer.rebuild(mimeTree,
textOnly)` upon completion (`error` when the walk throws a `TypeError`). -/
def rebuildBytes (fetch enc : Str → Str) (n : MimeNode) (textOnly : Bool) : Except Unit Str :=
  (rebuildWalk fetch enc (!textOnly) n { out := [], first := true, remainder := [] }).map RbSt.out

/-- Result shape of `getContents`: an in-memory string, or the rebuild stream
(materialized bytes) together with its declared `expectedLength`. -/
inductive Contents : Type where
  | str (s : Str)
  | stream (bytes : Str) (expectedLength : Option Nat)
deriving Repr, DecidableEq

/-- The `Indexer.rebuild` entry point: the stream plus
`expectedLength = this.getSize(mimeTree, textOnly)` (computed synchronously,
so its `TypeError` propagates out of `rebuild`; the walk's own `TypeError`
also errors the result). -/
def rebuild (fetch enc : Str → Str) (n : MimeNode) (textOnly : Bool) : Except Unit Contents :=
  match rebuildBytes fetch enc n textOnly with
  | .error e => .error e
  | .ok bytes =>
    match getSize n textOnly with
    | .error e => .error e
    | .ok len => .ok (Contents.stream bytes len)

/-- JS `'1.2.3'.split('.')`: dot-separated segments, keeping empty segments
(`''.split('.')` is `['']`). -/
def splitDots : Str → List Str
  | [] => [[]]
  | c :: rest =>
    if c = '.' then [] :: splitDots rest
    else match splitDots rest with
      | s :: ss => (c :: s) :: ss
      | [] => [[c]]

/-- JS `Number(segment)` restricted to optionally-signed decimal integer
strings, the only shapes a dot-split section path can take in this
development; anything else is `NaN` (`none`). `Number('')` is `0`, though the
resolver's loop stops on empty segments before converting them. -/
def jsNumber (s : Str) : Option Int :=
  if s.isEmpty then some 0
  else if s.all Char.isDigit then some (s.foldl (fun a c => a * 10 + (c.toNat - 48)) 0 : Nat)
  else match s with
    | '-' :: rest =>
      if !rest.isEmpty && rest.all Char.isDigit then
        some (-((rest.foldl (fun a c => a * 10 + (c.toNat - 48)) 0 : Nat) : Int))
      else none
    | _ => none

/-- One iteration body of the `resolveContentNode` loop: redirect into a
nested `message` when present, then index `childNodes` at `Number(seg) - 1`;
any failure (`childNodes` not an array, index `NaN`, negative or out of
bounds) returns `false` (`none`). -/
def resolveStep (n : MimeNode) (seg : Str) : Option MimeNode :=
  let n1 := match n.message with
    | some m => m
    | none => n
  match n1.childNodes with
  | none => none
  | some cs =>
    match jsNumber seg with
    | none => none
    | some i => mimeGetInt cs (i - 1)

/-- The `while ((pathNumber = pathNumbers.shift()))` loop: an exhausted list
or a falsy (empty) segment stops the loop and yields the current node. -/
def resolveLoop : List Str → MimeNode → Option MimeNode
  | [], n => some n
  | seg :: rest, n =>
    if seg.isEmpty then some n
    else match resolveStep n seg with
      | none => none
      | some c => resolveLoop rest c

/-- The `Indexer.resolveContentNode(mimeTree, path)` section-path resolver,
including the rewrite of a bare `'1'` to the root when the tree has no
`childNodes`. -/
def resolveContentNode (t : MimeNode) (path : Str) : Option MimeNode :=
  let path' := if t.childNodes.isNone && path == strLit "1" then [] else path
  resolveLoop (splitDots path') t

/-- An IMAP section selector as `getContents` consumes it: optional dotted
numeric `path`, a `type` keyword, and an optional header-name array. -/
structure Selector where
  path : Option Str
  type : Str
  headers : Option (List Str)

/-- The key extracted from a header line by the `header.fields*` filters:
`line.split(':').shift().toLowerCase().trim()`. -/
def lineKey (l : Str) : Str := trimStr (lowerStr (l.takeWhile (fun c => c ≠ ':')))

/-- The membership test of the `header.fields*` filters:
`selector.headers.indexOf(key) >= 0`. -/
def fieldsKeyTest (hs : List Str) (l : Str) : Bool := hs.contains (lineKey l)

/-- The node a selector operates on: resolved when `selector.path` is truthy,
the tree root otherwise. -/
def resolvedNode (t : MimeNode) (sel : Selector) : Option MimeNode :=
  if jsT sel.path then resolveContentNode t (sel.path.getD []) else some t

/-- The `Indexer.getContents(mimeTree, selector)` dispatcher. A failed path
resolution returns the empty string; `content`/`text` delegate to `rebuild`
(`textOnly` per branch); the `header*`/`mime` selectors build in-memory
strings. (The string-selector and missing-selector coercions at the top of
the source merely normalize into this object form.) -/
def getContents (fetch enc : Str → Str) (t : MimeNode) (sel : Selector) : Except Unit Contents :=
  match resolvedNode t sel with
  | none => Except.ok (Contents.str [])
  | some n =>
    if sel.type = [] ∨ sel.type = strLit "content" then
      if jsT sel.path then rebuild fetch enc n true else rebuild fetch enc n false
    else if sel.type = strLit "header" then
      if jsT sel.path then
        match n.message with
        | some m => Except.ok (.str (joinCRLF (m.header.getD []) ++ strLit "\r\n\r\n"))
        | none => Except.ok (.str [])
      else Except.ok (.str (joinCRLF (filterHeaders n.header) ++ strLit "\r\n\r\n"))
    else if sel.type = strLit "header.fields" then
      Except.ok (.str (match sel.headers with
        | none => strLit "\r\n\r\n"
        | some [] => strLit "\r\n\r\n"
        | some hs =>
          joinCRLF ((filterHeaders n.header).filter (fun l => fieldsKeyTest hs l)) ++
            strLit "\r\n\r\n"))
    else if sel.type = strLit "header.fields.not" then
      Except.ok (.str (match sel.headers with
        | none => joinCRLF (filterHeaders n.header) ++ strLit "\r\n\r\n"
        | some [] => joinCRLF (filterHeaders n.header) ++ strLit "\r\n\r\n"
        | some hs =>
          joinCRLF ((filterHeaders n.header).filter (fun l => !fieldsKeyTest hs l)) ++
            strLit "\r\n\r\n"))
    else if sel.type = strLit "mime" then
      Except.ok (.str (joinCRLF (filterHeaders n.header) ++ strLit "\r\n\r\n"))
    else if sel.type = strLit "text" then
      if jsT sel.path then
        match n.message with
        | some m => rebuild fetch enc m true
        | none => Except.ok (.str [])
      else rebuild fetch enc n true
    else Except.ok (.str [])

/-- The `Indexer.bodyQuery` buffering adapter: a plain string is returned as
its raw bytes, a stream is drained and concatenated; a stream error surfaces
as the error. -/
def bodyQuery (fetch enc : Str → Str) (t : MimeNode) (sel : Selector) : Except Unit Str :=
  match getContents fetch enc t sel with
  | .error e => .error e
  | .ok (.str s) => .ok s
  | .ok (.stream bytes _) => .ok bytes

/-- Whether a `childNodes` property is absent. -/
def ChildField.isUndef : ChildField → Bool
  | .undef => true
  | .arr _ => false

mutual

/-- Totality conditions for `getSize` (the amended C8 invariant): every node
carries a `parsedHeader` object, and a node that holds content (truthy `body`
or attachment marker) declares a `size`. -/
def totalWf : MimeNode → Bool
  | .mk _ ph body _ cf _ sz =>
    ph.isSome &&
    (!(jsT body || jsT (ph.bind ParsedHeader.xUrl)) || sz.isSome) &&
    (match cf with
     | .undef => true
     | .arr cs => totalWfList cs)

/-- `totalWf` over a node array. -/
def totalWfList : MimeList → Bool
  | .nil => true
  | .cons c rest => totalWf c && totalWfList rest

end

mutual

/-- Data-model invariants under which the size estimate provably matches the
rebuilt stream (the amended C1 invariant): every node has a `parsedHeader`; a
node holding a truthy local `body` has no boundary, no `childNodes` array, no
attachment marker, and declares `size` as its body byte length; a node
carrying an attachment marker has no boundary and no `childNodes` array, and
declares `size` as the byte length the external pipeline (fetch, then base64
encoding unless marked already-encoded) actually yields. -/
def wfNode (fetch enc : Str → Str) : MimeNode → Bool
  | .mk _ ph body bnd cf _ sz =>
    match ph with
    | none => false
    | some p =>
      (!jsT body || (bnd.isNone && cf.isUndef && !(jsT p.xUrl) &&
          sz == some (body.getD []).length)) &&
      (!jsT p.xUrl || (bnd.isNone && cf.isUndef &&
          sz == some (encContent fetch enc p).length)) &&
      (match cf with
       | .undef => true
       | .arr cs => wfList fetch enc cs)

/-- `wfNode` over a node array. -/
def wfList (fetch enc : Str → Str) : MimeList → Bool
  | .nil => true
  | .cons c rest => wfNode fetch enc c && wfList fetch enc rest

end

/-- The abstraction relation between a rebuild-walk state and a size-walk
state: no pending remainder, the size accumulator holds exactly the bytes
written so far, and the `first` flags agree. -/
def SyncPair (rb : RbSt) (sz : SizeSt) : Prop :=
  rb.remainder = [] ∧ sz.size = some rb.out.length ∧ sz.first = rb.first

/-- An empty parsed-header object (no synthetic attachment keys). -/
def phEmpty : ParsedHeader := ⟨none, none⟩

/-- The single-part scenario tree of C7: headers `Subject: hi` and
`Content-Type: text/plain`, body `Hello`, declared size 5. -/
def c7tree : MimeNode :=
  .mk (some [strLit "Subject: hi", strLit "Content-Type: text/plain"])
    (some phEmpty) (some (strLit "Hello")) none .undef .undef (some 5)

/-- The wire bytes of the C7 scenario message. -/
def c7target : Str := strLit "Subject: hi\r\nContent-Type: text/plain\r\n\r\nHello"

/-- A node none of whose properties exist (`{}` in JS). -/
def allAbsentNode : MimeNode := .mk none none none none .undef .undef none

/-- A header-only node whose `parsedHeader` exists. -/
def hdrOnlyNode : MimeNode :=
  .mk (some [strLit "A: b"]) (some phEmpty) none none .undef .undef none

/-- A node with a truthy `body`, a truthy `boundary` and an empty `childNodes`
array: permitted by the literal §3 invariants (its `childNodes` is empty, so
"at most one of non-empty childNodes, local body, marker" holds, and
`boundary` accompanies a present `childNodes`), with `size` equal to the body
byte length. -/
def mixedBodyBoundaryNode : MimeNode :=
  .mk (some [strLit "H: v"]) (some phEmpty) (some (strLit "AB")) (some (strLit "b"))
    (.arr .nil) .undef (some 2)

/-- A body leaf used by the C1 witness tree. -/
def c1LeafA : MimeNode :=
  .mk (some [strLit "Content-Type: text/plain"]) (some phEmpty) (some (strLit "Hi"))
    none .undef .undef (some 2)

/-- An externally-stored leaf used by the C1 witness tree. -/
def c1LeafB : MimeNode :=
  .mk (some [strLit "Content-Type: application/octet-stream",
             strLit "X-Attachment-Stream-Url: <http://u>"])
    (some ⟨some (strLit "<http://u>"), none⟩) none none .undef .undef (some 4)

/-- A two-part multipart tree (a body leaf and an externally-stored leaf). -/
def c1Tree : MimeNode :=
  .mk (some [strLit "MIME-Version: 1.0"]) (some phEmpty) none (some (strLit "b"))
    (.arr (.cons c1LeafA (.cons c1LeafB .nil))) .undef none

/-- A concrete external fetcher used by witnesses. -/
def cFetch : Str → Str := fun _ => strLit "DATA"

/-- A concrete encoder stage used by witnesses. -/
def cEnc : Str → Str := fun s => s

/-- A fetcher yielding 16 bytes, more than the declared 12 of `c4node`. -/
def c4fetch : Str → Str := fun _ => strLit "ABCDEFGHIJKLMNOP"

/-- Parsed header of the C4 scenario node: marker URL present,
`x-attachment-stream-encoded` absent. -/
def c4ph : ParsedHeader := ⟨some (strLit "<http://u>"), none⟩

/-- The C4 scenario node: externally stored, declared `size` 12. -/
def c4node : MimeNode :=
  .mk (some [strLit "Content-Type: application/octet-stream"]) (some c4ph) none none
    .undef .undef (some 12)

/-- A nested `message/rfc822` node whose raw header holds an internal
attachment-marker line. -/
def c3msg : MimeNode :=
  .mk (some [strLit "X-Attachment-Stream-Url: <u>"]) (some phEmpty) none none
    .undef .undef none

/-- A child node carrying the nested message `c3msg`. -/
def c3child : MimeNode :=
  .mk (some [strLit "Content-Type: message/rfc822"]) (some phEmpty) none none
    .undef (.node c3msg) none

/-- A root whose single child carries a nested message. -/
def c3root : MimeNode :=
  .mk (some [strLit "Content-Type: multipart/mixed"]) (some phEmpty) none
    (some (strLit "b")) (.arr (.cons c3child .nil)) .undef none

/-- A leaf with body `A`, used as first child of `c2tree`. -/
def c2LeafA : MimeNode :=
  .mk (some [strLit "Content-Type: text/plain"]) (some phEmpty) (some (strLit "A"))
    none .undef .undef (some 1)

/-- A leaf with body `B`, used as second child of `c2tree` and as the nested
message child of `c2msgTree`. -/
def c2LeafB : MimeNode :=
  .mk (some [strLit "Content-Type: text/plain"]) (some phEmpty) (some (strLit "B"))
    none .undef .undef (some 1)

/-- A message-free two-child tree. -/
def c2tree : MimeNode :=
  .mk (some [strLit "Content-Type: multipart/mixed"]) (some phEmpty) none
    (some (strLit "b")) (.arr (.cons c2LeafA (.cons c2LeafB .nil))) .undef none

/-- A tree with one direct child (`c2LeafA`) and a nested `message` whose own
child list starts with `c2LeafB`: path resolution redirects into the message. -/
def c2msgTree : MimeNode :=
  .mk (some [strLit "Content-Type: message/rfc822"]) (some phEmpty) none
    (some (strLit "b")) (.arr (.cons c2LeafA .nil))
    (.node (.mk none (some phEmpty) none none (.arr (.cons c2LeafB .nil)) .undef none))
    none

/-- A childless, message-free leaf. -/
def plainLeaf : MimeNode :=
  .mk (some [strLit "Content-Type: text/plain"]) (some phEmpty) (some (strLit "x"))
    none .undef .undef (some 1)

theorem szAppend_isSome (st : SizeSt) (d : Str) (f : Bool)
    (h : st.size.isSome = true) : ((szAppend st d f).size).isSome = true := by
  obtain ⟨k, hk⟩ := Option.isSome_iff_exists.mp h
  unfold szAppend
  split <;> simp [hk]

theorem szBump_isSome (st : SizeSt) (sz : Option Nat)
    (h : st.size.isSome = true) (hsz : sz.isSome = true) :
    ((szBump st sz).size).isSome = true := by
  obtain ⟨k, hk⟩ := Option.isSome_iff_exists.mp h
  obtain ⟨m, hm⟩ := Option.isSome_iff_exists.mp hsz
  simp [szBump, szAppend, hk, hm, jsAdd]

theorem szFinalize_isSome (bnd : Option Str) (st : SizeSt)
    (h : st.size.isSome = true) : ((szFinalize bnd st).size).isSome = true := by
  unfold szFinalize
  apply szAppend_isSome
  split
  · exact szAppend_isSome _ _ _ h
  · exact h

theorem matchFin_ok (bnd : Option Str) (r : Except Unit SizeSt)
    (h : ∃ st1 : SizeSt, r = Except.ok st1 ∧ st1.size.isSome = true) :
    ∃ stf : SizeSt,
      (match r with
       | .error e => Except.error e
       | .ok st => Except.ok (szFinalize bnd st)) = Except.ok stf ∧
        stf.size.isSome = true := by
  obtain ⟨st1, h1, h2⟩ := h
  subst h1
  exact ⟨_, rfl, szFinalize_isSome _ _ h2⟩

mutual

theorem sizeWalk_ok (hdrOn : Bool) (n : MimeNode) (st : SizeSt)
    (hwf : totalWf n = true) (hs : st.size.isSome = true) :
    ∃ st1 : SizeSt, sizeWalk hdrOn n st = Except.ok st1 ∧ st1.size.isSome = true := by
  match n with
  | .mk hdr ph body bnd cf mf sz =>
    cases ph with
    | none => simp [totalWf] at hwf
    | some p =>
      have hs0 : ((if hdrOn then
          szAppend st (joinCRLF (filterHeaders hdr) ++ strLit "\r\n") false else st).size).isSome
          = true := by
        split
        · exact szAppend_isSome _ _ _ hs
        · exact hs
      cases cf with
      | undef =>
        simp only [totalWf, Bool.and_eq_true, Option.isSome_some, Option.some_bind] at hwf
        obtain ⟨⟨-, hsz⟩, -⟩ := hwf
        by_cases hb : jsT body = true
        · simp only [hb, Bool.true_or, Bool.not_true, Bool.false_or] at hsz
          simp only [sizeWalk, hb, if_true]
          by_cases hbd : jsT bnd = true
          · simp [hbd]
            exact szFinalize_isSome _ _
              (szAppend_isSome _ _ _ (szBump_isSome _ _ hs0 hsz))
          · rw [Bool.not_eq_true] at hbd
            by_cases hu : jsT p.xUrl = true
            · simp [hbd, hu]
              exact szFinalize_isSome _ _ (szBump_isSome _ _ hs0 hsz)
            · rw [Bool.not_eq_true] at hu
              simp [hbd, hu]
              exact szFinalize_isSome _ _ (szBump_isSome _ _ hs0 hsz)
        · rw [Bool.not_eq_true] at hb
          by_cases hu : jsT p.xUrl = true
          · simp only [hb, hu, Bool.false_or, Bool.or_true, Bool.not_true] at hsz
            by_cases hbd : jsT bnd = true
            · simp [sizeWalk, hb, hu, hbd]
              exact szFinalize_isSome _ _
                (szAppend_isSome _ _ _ (szBump_isSome _ _ hs0 hsz))
            · rw [Bool.not_eq_true] at hbd
              simp [sizeWalk, hb, hu, hbd]
              exact szFinalize_isSome _ _ (szBump_isSome _ _ hs0 hsz)
          · rw [Bool.not_eq_true] at hu
            by_cases hbd : jsT bnd = true
            · simp [sizeWalk, hb, hu, hbd]
              exact szFinalize_isSome _ _ (szAppend_isSome _ _ _ hs0)
            · rw [Bool.not_eq_true] at hbd
              simp [sizeWalk, hb, hu, hbd]
              exact szFinalize_isSome _ _ hs0
      | arr cs =>
        simp only [totalWf, Bool.and_eq_true, Option.isSome_some, Option.some_bind] at hwf
        obtain ⟨⟨-, hsz⟩, hcf⟩ := hwf
        by_cases hb : jsT body = true
        · simp only [hb, Bool.true_or, Bool.not_true, Bool.false_or] at hsz
          by_cases hbd : jsT bnd = true
          · simp [sizeWalk, hb, hbd]
            exact matchFin_ok bnd _ (sizeWalkChildren_ok bnd cs _ hcf
              (szAppend_isSome _ _ _ (szBump_isSome _ _ hs0 hsz)))
          · rw [Bool.not_eq_true] at hbd
            by_cases hu : jsT p.xUrl = true
            · simp [sizeWalk, hb, hbd, hu]
              exact szFinalize_isSome _ _ (szBump_isSome _ _ hs0 hsz)
            · rw [Bool.not_eq_true] at hu
              simp [sizeWalk, hb, hbd, hu]
              exact matchFin_ok bnd _ (sizeWalkChildren_ok bnd cs _ hcf
                (szBump_isSome _ _ hs0 hsz))
        · rw [Bool.not_eq_true] at hb
          by_cases hu : jsT p.xUrl = true
          · simp only [hb, hu, Bool.false_or, Bool.or_true, Bool.not_true] at hsz
            by_cases hbd : jsT bnd = true
            · simp [sizeWalk, hb, hu, hbd]
              exact matchFin_ok bnd _ (sizeWalkChildren_ok bnd cs _ hcf
                (szAppend_isSome _ _ _ (szBump_isSome _ _ hs0 hsz)))
            · rw [Bool.not_eq_true] at hbd
              simp [sizeWalk, hb, hu, hbd]
              exact szFinalize_isSome _ _ (szBump_isSome _ _ hs0 hsz)
          · rw [Bool.not_eq_true] at hu
            by_cases hbd : jsT bnd = true
            · simp [sizeWalk, hb, hu, hbd]
              exact matchFin_ok bnd _ (sizeWalkChildren_ok bnd cs _ hcf
                (szAppend_isSome _ _ _ hs0))
            · rw [Bool.not_eq_true] at hbd
              simp [sizeWalk, hb, hu, hbd]
              exact matchFin_ok bnd _ (sizeWalkChildren_ok bnd cs _ hcf hs0)

theorem sizeWalkChildren_ok (bnd : Option Str) (cs : MimeList) (st : SizeSt)
    (hwf : totalWfList cs = true) (hs : st.size.isSome = true) :
    ∃ st1 : SizeSt, sizeWalkChildren bnd cs st = Except.ok st1 ∧ st1.size.isSome = true := by
  match cs with
  | .nil => exact ⟨st, rfl, hs⟩
  | .cons c rest =>
    simp only [totalWfList, Bool.and_eq_true] at hwf
    obtain ⟨hwc, hwr⟩ := hwf
    obtain ⟨st1, h1, h2⟩ := sizeWalk_ok true c st hwc hs
    have h2' : ((sibSepSz bnd rest st1).size).isSome = true := by
      unfold sibSepSz
      cases rest with
      | nil => exact h2
      | cons _ _ => exact szAppend_isSome _ _ _ h2
    obtain ⟨st2, h3, h4⟩ := sizeWalkChildren_ok bnd rest _ hwr h2'
    refine ⟨st2, ?_, h4⟩
    rw [sizeWalkChildren, h1]
    exact h3

end

/-- C9: the Header Filter is idempotent: filtering an already-filtered header
sequence yields the same sequence, so no internal marker line is ever
re-introduced by a second application. -/
theorem c9_filterHeaders_idem (h : Option (List Str)) :
    filterHeaders (some (filterHeaders h)) = filterHeaders h := by
  simp [filterHeaders, List.filter_filter]

/-- C3 (amended): the Header Filter never passes a line matching the internal
attachment-marker prefix, so every emission site that goes through
`filterHeaders` (the `header` selector without path, `header.fields`,
`header.fields.not`, `mime`, and the header blocks written by the rebuild
walk) is marker-free. (The `header` selector with a path to a node carrying a
nested message returns raw, unfiltered lines — see the counterexample.) -/
theorem c3_filter_blocks_marker (h : Option (List Str)) (l : Str)
    (hmem : l ∈ filterHeaders h) : xStreamTest l = false := by
  simp only [filterHeaders, List.mem_filter] at hmem
  simpa using hmem.2

theorem c3_witness :
    strLit "Subject: hi" ∈ filterHeaders (some [strLit "Subject: hi"]) ∧
      xStreamTest (strLit "Subject: hi") = false :=
  ⟨by decide, c3_filter_blocks_marker (some [strLit "Subject: hi"]) _ (by decide)⟩

theorem c3_counterexample :
    getContents cFetch cEnc c3root ⟨some (strLit "1"), strLit "header", none⟩ =
      Except.ok (Contents.str (strLit "X-Attachment-Stream-Url: <u>\r\n\r\n")) ∧
      xStreamTest (strLit "X-Attachment-Stream-Url: <u>") = true := by
  exact ⟨by rfl, by decide⟩

/-- C8 (amended): `getSize` terminates with an integer for every tree whose
nodes all carry a `parsedHeader` object and declare a `size` whenever they
hold content; absent `header`, `body`, `boundary`, `childNodes`, `message`
fields are treated as empty. (Without `parsedHeader` the source throws a
`TypeError`; without `size` on a content node it returns `NaN` — see the
counterexample.) -/
theorem c8_getSize_total (n : MimeNode) (textOnly : Bool) (hwf : totalWf n = true) :
    ∃ k : Nat, getSize n textOnly = Except.ok (some k) := by
  obtain ⟨st1, hw, hs⟩ := sizeWalk_ok (!textOnly) n ⟨some 0, true⟩ hwf (by simp)
  obtain ⟨k, hk⟩ := Option.isSome_iff_exists.mp hs
  exact ⟨k, by simp [getSize, hw, Except.map, hk]⟩

theorem c8_witness : totalWf hdrOnlyNode = true ∧
    ∃ k : Nat, getSize hdrOnlyNode false = Except.ok (some k) :=
  ⟨by decide, c8_getSize_total hdrOnlyNode false (by decide)⟩

theorem c8_counterexample : getSize allAbsentNode false = Except.error () := by rfl

theorem resolve_nil (t : MimeNode) : resolveContentNode t [] = some t := by
  unfold resolveContentNode
  have he : (([] : Str) == strLit "1") = false := by decide
  simp [he, splitDots, resolveLoop]

/-- C7 (amended): the single-part scenario message materializes, through the
content selector and the buffering adapter, to exactly
`Subject: hi\r\nContent-Type: text/plain\r\n\r\nHello`, whose byte length —
and the value of `EstimateSize(tree, false)` — is 46 (not 45 as the scenario
parenthesizes). -/
theorem c7_single_part_scenario (fetch enc : Str → Str) :
    getContents fetch enc c7tree ⟨none, strLit "content", none⟩ =
      Except.ok (Contents.stream c7target (some 46)) ∧
    bodyQuery fetch enc c7tree ⟨none, strLit "content", none⟩ = Except.ok c7target ∧
    c7target.length = 46 := by
  refine ⟨rfl, rfl, by decide⟩

theorem c7_counterexample :
    getSize c7tree false = Except.ok (some 46) ∧ c7target.length = 46 ∧ (46 : Nat) ≠ 45 :=
  ⟨rfl, by decide, by decide⟩

/-- C5: a selector whose path is present but does not resolve yields the empty
in-memory string, with no error; in particular `{path: "9.9", type: "content"}`
against a message-free tree whose root has exactly one child. -/
theorem c5_unresolved_path_empty :
    (∀ (fetch enc : Str → Str) (t : MimeNode) (sel : Selector) (p : Str),
      sel.path = some p → resolveContentNode t p = none →
      getContents fetch enc t sel = Except.ok (Contents.str [])) ∧
    (∀ (fetch enc : Str → Str) (t : MimeNode) (c : MimeNode),
      t.childNodes = some (.cons c .nil) → t.message = none →
      getContents fetch enc t ⟨some (strLit "9.9"), strLit "content", none⟩ =
        Except.ok (Contents.str [])) := by
  have h1 : ∀ (fetch enc : Str → Str) (t : MimeNode) (sel : Selector) (p : Str),
      sel.path = some p → resolveContentNode t p = none →
      getContents fetch enc t sel = Except.ok (Contents.str []) := by
    intro fetch enc t sel p hp hr
    match p with
    | [] => rw [resolve_nil] at hr; exact Option.noConfusion hr
    | c :: p' =>
      unfold getContents resolvedNode
      rw [hp]
      simp only [jsT, List.isEmpty_cons, Bool.not_false, if_true, Option.getD_some, hr]
  refine ⟨h1, ?_⟩
  intro fetch enc t c hcn hm
  apply h1 fetch enc t _ (strLit "9.9") rfl
  cases t with
  | mk a b bo bn cf mf sz =>
    cases cf with
    | undef => simp [MimeNode.childNodes] at hcn
    | arr cs =>
      simp only [MimeNode.childNodes, Option.some.injEq] at hcn
      subst hcn
      cases mf with
      | node m => simp [MimeNode.message] at hm
      | undef => rfl

theorem c5_witness :
    getContents cFetch cEnc c3root ⟨some (strLit "9.9"), strLit "content", none⟩ =
      Except.ok (Contents.str []) :=
  c5_unresolved_path_empty.2 cFetch cEnc c3root c3child rfl rfl

theorem lineKey_name (name r : Str) (hn : ':' ∉ name) :
    lineKey (name ++ ':' :: r) = trimStr (lowerStr name) := by
  have ht : (name ++ ':' :: r).takeWhile (fun c => c ≠ ':') = name := by
    induction name with
    | nil => simp [List.takeWhile]
    | cons c cs ih =>
      have hc : (c : Char) ≠ ':' := fun h => hn (h ▸ List.mem_cons_self c cs)
      have hcs : ':' ∉ cs := fun h => hn (List.mem_cons_of_mem _ h)
      simp only [List.cons_append, List.takeWhile_cons, decide_eq_true_eq]
      rw [if_pos hc, ih hcs]
  rw [lineKey, ht]

/-- C6: `header.fields` with an empty or absent header set returns exactly the
4-byte `\r\n\r\n`, whatever the resolved node's headers; `header.fields.not`
with an empty set returns all filtered header lines plus the trailing blank
line; with a non-empty set the output filters the node's filtered lines by the
`fieldsKeyTest` membership test, which is case-insensitive in the header
line's name (the requested set itself is expected lower-cased, per the
interface contract). -/
theorem c6_header_fields_selectors (fetch enc : Str → Str) (t : MimeNode) (sel : Selector)
    (n : MimeNode) (hres : resolvedNode t sel = some n) :
    (sel.type = strLit "header.fields" → (sel.headers = none ∨ sel.headers = some []) →
      getContents fetch enc t sel = Except.ok (Contents.str (strLit "\r\n\r\n"))) ∧
    (sel.type = strLit "header.fields.not" → (sel.headers = none ∨ sel.headers = some []) →
      getContents fetch enc t sel =
        Except.ok (Contents.str (joinCRLF (filterHeaders n.header) ++ strLit "\r\n\r\n"))) ∧
    (∀ hs : List Str, sel.type = strLit "header.fields" → sel.headers = some hs → hs ≠ [] →
      getContents fetch enc t sel = Except.ok (Contents.str
        (joinCRLF ((filterHeaders n.header).filter (fun l => fieldsKeyTest hs l)) ++
          strLit "\r\n\r\n"))) ∧
    (∀ (hs : List Str) (n1 n2 r1 r2 : Str), ':' ∉ n1 → ':' ∉ n2 →
      lowerStr n1 = lowerStr n2 →
      fieldsKeyTest hs (n1 ++ ':' :: r1) = fieldsKeyTest hs (n2 ++ ':' :: r2)) := by
  have e1 : ¬(strLit "header.fields" = ([] : Str) ∨
      strLit "header.fields" = strLit "content") := by decide
  have e2 : strLit "header.fields" ≠ strLit "header" := by decide
  have e3 : ¬(strLit "header.fields.not" = ([] : Str) ∨
      strLit "header.fields.not" = strLit "content") := by decide
  have e4 : strLit "header.fields.not" ≠ strLit "header" := by decide
  have e5 : strLit "header.fields.not" ≠ strLit "header.fields" := by decide
  refine ⟨?_, ?_, ?_, ?_⟩
  · intro ht hh
    unfold getContents
    rw [hres, ht]
    rcases hh with hh | hh <;> simp [e1, e2, hh]
  · intro ht hh
    unfold getContents
    rw [hres, ht]
    rcases hh with hh | hh <;> simp [e3, e4, e5, hh]
  · intro hs ht hh hne
    unfold getContents
    rw [hres, ht]
    match hs, hne with
    | h0 :: hrest, _ => simp [e1, e2, hh]
  · intro hs n1 n2 r1 r2 h1 h2 hl
    unfold fieldsKeyTest
    rw [lineKey_name n1 r1 h1, lineKey_name n2 r2 h2, hl]

theorem c6_witness :
    getContents cFetch cEnc c7tree ⟨none, strLit "header.fields", none⟩ =
      Except.ok (Contents.str (strLit "\r\n\r\n")) :=
  (c6_header_fields_selectors cFetch cEnc c7tree ⟨none, strLit "header.fields", none⟩
    c7tree rfl).1 rfl (Or.inl rfl)

theorem splitDots_ne_nil (s : Str) : splitDots s ≠ [] := by
  match s with
  | [] => simp [splitDots]
  | c :: rest =>
    unfold splitDots
    split
    · simp
    · split <;> simp

theorem splitDots_cons_ne (c : Char) (rest : Str) (hc : c ≠ '.') :
    ∃ s ss, splitDots (c :: rest) = (c :: s) :: ss := by
  unfold splitDots
  rw [if_neg hc]
  rcases h : splitDots rest with _ | ⟨s, ss⟩
  · exact absurd h (splitDots_ne_nil rest)
  · exact ⟨s, ss, rfl⟩

theorem splitDots_no_dot : ∀ s : Str, '.' ∉ s → splitDots s = [s]
  | [], _ => rfl
  | c :: rest, h => by
    have hc : c ≠ '.' := fun hh => h (hh ▸ List.mem_cons_self _ _)
    have hr := splitDots_no_dot rest (fun hh => h (List.mem_cons_of_mem _ hh))
    unfold splitDots
    rw [if_neg hc, hr]

theorem mimeGet_lt : ∀ (cs : MimeList) (k : Nat), k < cs.length → ∃ c, cs.get? k = some c
  | .nil, k, h => by simp [MimeList.length] at h
  | .cons hd tl, 0, _ => ⟨hd, rfl⟩
  | .cons hd tl, k + 1, h =>
    mimeGet_lt tl k (by simpa [MimeList.length, Nat.succ_lt_succ_iff] using h)

theorem mimeGet_ge : ∀ (cs : MimeList) (k : Nat), cs.length ≤ k → cs.get? k = none
  | .nil, _, _ => rfl
  | .cons hd tl, 0, h => by simp [MimeList.length] at h
  | .cons hd tl, k + 1, h =>
    mimeGet_ge tl k (by simpa [MimeList.length, Nat.succ_le_succ_iff] using h)

theorem resolve_eq_loop (t : MimeNode) (cs : MimeList) (hcn : t.childNodes = some cs)
    (p : Str) : resolveContentNode t p = resolveLoop (splitDots p) t := by
  unfold resolveContentNode
  have h : t.childNodes.isNone = false := by rw [hcn]; rfl
  rw [h]
  simp

theorem resolveStep_eq (t : MimeNode) (cs : MimeList) (seg : Str) (i : Nat)
    (hcn : t.childNodes = some cs) (hm : t.message = none)
    (hnum : jsNumber seg = some (i : Int)) (h1 : 1 ≤ i) :
    resolveStep t seg = cs.get? (i - 1) := by
  unfold resolveStep
  simp only [hm, hcn, hnum]
  have hcast : (i : Int) - 1 = ((i - 1 : Nat) : Int) := by omega
  rw [hcast]
  rfl

theorem resolveStep_zero (n : MimeNode) : resolveStep n (strLit "0") = none := by
  have hj : jsNumber (strLit "0") = some 0 := rfl
  unfold resolveStep
  rcases hm : n.message with _ | m
  · simp only [hm]
    rcases hc : n.childNodes with _ | cs
    · simp [hc]
    · simp only [hc, hj]
      rfl
  · simp only [hm]
    rcases hc : m.childNodes with _ | cs
    · simp [hc]
    · simp only [hc, hj]
      rfl

/-- C2 (amended): for a tree whose root has N children and carries no nested
`message` (a nested message redirects resolution into itself before indexing —
see the counterexample), resolving a single-segment numeric path `i` with
1 ≤ i ≤ N returns `childNodes[i-1]`; resolving `"0"` returns NotFound for
every tree; resolving `"N+1"` returns NotFound; any non-empty path other than
the exact string `"1"` through a message-free node without `childNodes`
returns NotFound; and the empty path, or the bare `"1"` against a tree
without `childNodes`, returns the tree root itself. -/
theorem c2_resolve_paths :
    (∀ (t : MimeNode) (cs : MimeList) (seg : Str) (i : Nat),
      t.childNodes = some cs → t.message = none → '.' ∉ seg →
      jsNumber seg = some (i : Int) → 1 ≤ i → i ≤ cs.length →
      ∃ c, cs.get? (i - 1) = some c ∧ resolveContentNode t seg = some c) ∧
    (∀ t : MimeNode, resolveContentNode t (strLit "0") = none) ∧
    (∀ (t : MimeNode) (cs : MimeList) (seg : Str),
      t.childNodes = some cs → t.message = none → '.' ∉ seg →
      jsNumber seg = some ((cs.length + 1 : Nat) : Int) →
      resolveContentNode t seg = none) ∧
    (∀ (t : MimeNode) (p : Str), t.childNodes = none → t.message = none →
      p ≠ strLit "1" → p ≠ [] → p.head? ≠ some '.' → resolveContentNode t p = none) ∧
    (∀ t : MimeNode, resolveContentNode t [] = some t) ∧
    (∀ t : MimeNode, t.childNodes = none → resolveContentNode t (strLit "1") = some t) := by
  refine ⟨?_, ?_, ?_, ?_, ?_, ?_⟩
  · intro t cs seg i hcn hm hdot hnum h1 h2
    obtain ⟨c, hc⟩ := mimeGet_lt cs (i - 1) (by omega)
    refine ⟨c, hc, ?_⟩
    rw [resolve_eq_loop t cs hcn, splitDots_no_dot seg hdot]
    have hseg : seg.isEmpty = false := by
      cases seg with
      | nil =>
        exfalso
        have h0 : (0 : Int) = (i : Int) := Option.some.inj hnum
        omega
      | cons a b => rfl
    simp [resolveLoop, hseg, resolveStep_eq t cs seg i hcn hm hnum h1, hc]
  · intro t
    have hb : (strLit "0" == strLit "1") = false := by decide
    have hsp : splitDots (strLit "0") = [strLit "0"] := by decide
    have hie : (strLit "0").isEmpty = false := rfl
    unfold resolveContentNode
    simp [hb, hsp, hie, resolveLoop, resolveStep_zero]
  · intro t cs seg hcn hm hdot hnum
    rw [resolve_eq_loop t cs hcn, splitDots_no_dot seg hdot]
    have hseg : seg.isEmpty = false := by
      cases seg with
      | nil =>
        exfalso
        have h0 : (0 : Int) = ((cs.length + 1 : Nat) : Int) := Option.some.inj hnum
        omega
      | cons a b => rfl
    have hstep := resolveStep_eq t cs seg (cs.length + 1) hcn hm hnum (by omega)
    rw [mimeGet_ge cs (cs.length + 1 - 1) (by omega)] at hstep
    simp [resolveLoop, hseg, hstep]
  · intro t p hcn hm hp1 hpne hph
    have hbeq : (p == strLit "1") = false := by
      cases hb : p == strLit "1"
      · rfl
      · exact absurd (eq_of_beq hb) hp1
    have hin : t.childNodes.isNone = true := by rw [hcn]; rfl
    unfold resolveContentNode
    rw [hin, hbeq]
    obtain ⟨c, rest, rfl⟩ : ∃ c rest, p = c :: rest := by
      cases p with
      | nil => exact absurd rfl hpne
      | cons c rest => exact ⟨c, rest, rfl⟩
    have hcne : c ≠ '.' := by
      intro h
      subst h
      exact hph rfl
    obtain ⟨s, ss, hsp⟩ := splitDots_cons_ne c rest hcne
    have hstep : resolveStep t (c :: s) = none := by
      unfold resolveStep
      simp only [hm, hcn]
    simp [hsp, resolveLoop, hstep]
  · exact resolve_nil
  · intro t hcn
    have hin : t.childNodes.isNone = true := by rw [hcn]; rfl
    have hb : (strLit "1" == strLit "1") = true := by decide
    unfold resolveContentNode
    rw [hin, hb]
    simp [splitDots, resolveLoop]

theorem c2_counterexample :
    c2msgTree.childNodes = some (.cons c2LeafA .nil) ∧
    (resolveContentNode c2msgTree (strLit "1")).map MimeNode.body =
      some (some (strLit "B")) ∧
    c2LeafA.body = some (strLit "A") ∧ strLit "B" ≠ strLit "A" :=
  ⟨rfl, rfl, rfl, by decide⟩

theorem c2_witness :
    (∃ c, (MimeList.cons c2LeafA (.cons c2LeafB .nil)).get? 1 = some c ∧
      resolveContentNode c2tree (strLit "2") = some c) ∧
    resolveContentNode plainLeaf (strLit "1") = some plainLeaf :=
  ⟨c2_resolve_paths.1 c2tree _ (strLit "2") 2 rfl rfl (by decide) (by decide)
      (by decide) (by decide),
   c2_resolve_paths.2.2.2.2.2 plainLeaf rfl⟩

/-- C10 (amended): the resolver loop stops at the first empty segment and
returns the node reached so far, provided all earlier segments resolve;
consequently `"1..2"` and `"1."` resolve exactly like `"1"` whenever the tree
has a `childNodes` array, and `".2"` always resolves to the root. For a
childless tree the bare-`"1"`-to-root rewrite applies to the exact path `"1"`
only, so there `"1..2"` is NotFound while `"1"` is the root (see the
counterexample). -/
theorem c10_empty_segment_stops :
    (∀ (t : MimeNode) (segs rest : List Str), (∀ s ∈ segs, s ≠ []) →
      resolveLoop (segs ++ [] :: rest) t = resolveLoop segs t) ∧
    (∀ (t : MimeNode) (cs : MimeList), t.childNodes = some cs →
      resolveContentNode t (strLit "1..2") = resolveContentNode t (strLit "1")) ∧
    (∀ (t : MimeNode) (cs : MimeList), t.childNodes = some cs →
      resolveContentNode t (strLit "1.") = resolveContentNode t (strLit "1")) ∧
    (∀ t : MimeNode, resolveContentNode t (strLit ".2") = some t) := by
  have h1 : ∀ (t : MimeNode) (segs rest : List Str), (∀ s ∈ segs, s ≠ []) →
      resolveLoop (segs ++ [] :: rest) t = resolveLoop segs t := by
    intro t segs
    induction segs generalizing t with
    | nil =>
      intro rest _
      simp [resolveLoop]
    | cons s ss ih =>
      intro rest hne
      have hs : s ≠ [] := hne s (List.mem_cons_self _ _)
      have hie : s.isEmpty = false := by
        cases s with
        | nil => exact absurd rfl hs
        | cons a b => rfl
      simp only [List.cons_append, resolveLoop, hie]
      cases hstep : resolveStep t s with
      | none => simp
      | some c => simp [ih c rest (fun x hx => hne x (List.mem_cons_of_mem _ hx))]
  refine ⟨h1, ?_, ?_, ?_⟩
  · intro t cs hcn
    rw [resolve_eq_loop t cs hcn, resolve_eq_loop t cs hcn]
    have e1 : splitDots (strLit "1..2") = [strLit "1"] ++ [] :: [strLit "2"] := by decide
    have e2 : splitDots (strLit "1") = [strLit "1"] := by decide
    rw [e1, e2, h1 t [strLit "1"] [strLit "2"] (by decide)]
  · intro t cs hcn
    rw [resolve_eq_loop t cs hcn, resolve_eq_loop t cs hcn]
    have e1 : splitDots (strLit "1.") = [strLit "1"] ++ [] :: [] := by decide
    have e2 : splitDots (strLit "1") = [strLit "1"] := by decide
    rw [e1, e2, h1 t [strLit "1"] [] (by decide)]
  · intro t
    have hb : (strLit ".2" == strLit "1") = false := by decide
    have e : splitDots (strLit ".2") = [] :: [strLit "2"] := by decide
    unfold resolveContentNode
    simp [hb, e, resolveLoop]

theorem c10_counterexample :
    resolveContentNode plainLeaf (strLit "1") = some plainLeaf ∧
    resolveContentNode plainLeaf (strLit "1..2") = none ∧
    some plainLeaf ≠ (none : Option MimeNode) :=
  ⟨rfl, rfl, by simp⟩

theorem c10_witness :
    resolveContentNode c2tree (strLit "1..2") = resolveContentNode c2tree (strLit "1") :=
  c10_empty_segment_stops.2.1 c2tree (MimeList.cons c2LeafA (.cons c2LeafB .nil)) rfl

/-- C4: during rebuild of a node carrying the attachment marker (and no
boundary, which would otherwise bypass the fetch branch), the fetched bytes
are base64-transcoded through the encoder stage unless
`x-attachment-stream-encoded` affirmatively matches YES; in both cases the
emitted content segment is the length-limiter output, whose byte count is
capped at the node's declared `size` — for `size = 12` exactly 12 bytes even
when the remote source yields more. -/
theorem c4_external_content (fetch enc : Str → Str) (n : MimeNode) (p : ParsedHeader)
    (u : Str) (textOnly : Bool) (hph : n.parsedHeader = some p) (hu : p.xUrl = some u)
    (hut : u ≠ []) (hbd : n.boundary = none) :
    ∃ pre : Str,
      rebuildBytes fetch enc n textOnly =
        Except.ok (pre ++ lengthLimiter n.size
          (if jsYesTest p.xEncoded then fetch (stripAngles u)
           else enc (fetch (stripAngles u)))) ∧
      ∀ k : Nat, n.size = some k →
        (lengthLimiter n.size
          (if jsYesTest p.xEncoded then fetch (stripAngles u)
           else enc (fetch (stripAngles u)))).length =
          min k (if jsYesTest p.xEncoded then fetch (stripAngles u)
                 else enc (fetch (stripAngles u))).length := by
  cases n with
  | mk hdr ph body bnd cf mf sz =>
    simp only [MimeNode.parsedHeader] at hph
    simp only [MimeNode.boundary] at hbd
    subst hph
    subst hbd
    have hju : jsT (some u) = true := by
      cases u with
      | nil => exact absurd rfl hut
      | cons a b => rfl
    constructor
    case h =>
      constructor
      · unfold rebuildBytes rebuildWalk
        simp only [encContent, hu, hju, Option.getD_some, MimeNode.size]
        rfl
      · intro k hk
        simp only [MimeNode.size] at hk
        subst hk
        simp [MimeNode.size, lengthLimiter, List.length_take]

theorem c4_witness :
    ∃ pre : Str,
      rebuildBytes c4fetch cEnc c4node false =
        Except.ok (pre ++ lengthLimiter c4node.size
          (if jsYesTest c4ph.xEncoded then c4fetch (stripAngles (strLit "<http://u>"))
           else cEnc (c4fetch (stripAngles (strLit "<http://u>"))))) ∧
      ∀ k : Nat, c4node.size = some k →
        (lengthLimiter c4node.size
          (if jsYesTest c4ph.xEncoded then c4fetch (stripAngles (strLit "<http://u>"))
           else cEnc (c4fetch (stripAngles (strLit "<http://u>"))))).length =
          min k (if jsYesTest c4ph.xEncoded then c4fetch (stripAngles (strLit "<http://u>"))
                 else cEnc (c4fetch (stripAngles (strLit "<http://u>")))).length :=
  c4_external_content c4fetch cEnc c4node c4ph (strLit "<http://u>") false rfl rfl
    (by decide) rfl

theorem crlf_length : (strLit "\r\n").length = 2 := rfl

theorem appendSync {rb : RbSt} {sz : SizeSt} (h : SyncPair rb sz) (d : Str) (f : Bool) :
    SyncPair (rbAppend rb d f) (szAppend sz d f) := by
  obtain ⟨h1, h2, h3⟩ := h
  rcases rb with ⟨out, fr, rem⟩
  rcases sz with ⟨szv, szf⟩
  have h1' : rem = [] := h1
  have h2' : szv = some out.length := h2
  have h3' : szf = fr := h3
  subst h1'
  unfold rbAppend szAppend
  by_cases hc : (f || !d.isEmpty) = true
  · have hc1 : (f || !(List.isEmpty ([] : Str)) || !d.isEmpty) = true := by
      simpa using hc
    rw [if_pos hc1, if_pos hc]
    refine ⟨rfl, ?_, rfl⟩
    simp only [h2', h3', Option.map_some]
    cases fr <;> simp [List.length_append, crlf_length] <;> omega
  · have hc1 : ¬(f || !(List.isEmpty ([] : Str)) || !d.isEmpty) = true := by
      simpa using hc
    rw [if_neg hc1, if_neg hc]
    exact ⟨rfl, h2', h3'⟩

theorem updEq (rb : RbSt) (h : rb.remainder = []) : { rb with remainder := ([] : Str) } = rb := by
  rcases rb with ⟨o, f, r⟩
  have h' : r = [] := h
  subst h'
  rfl

theorem jsT_false_getD {body : Option Str} (h : jsT body = false) : body.getD [] = [] := by
  cases body with
  | none => rfl
  | some s =>
    cases s with
    | nil => rfl
    | cons a b => simp [jsT] at h

theorem finalizeSync {rb : RbSt} {sz : SizeSt} (h : SyncPair rb sz) (bnd : Option Str) :
    SyncPair (rbFinalize bnd rb) (szFinalize bnd sz) := by
  unfold rbFinalize szFinalize
  by_cases hj : jsT bnd = true
  · simp only [hj, if_true]
    exact appendSync (appendSync h _ _) _ _
  · simp only [hj, if_false]
    exact appendSync h _ _

theorem bodyFlushSync {rb : RbSt} {sz : SizeSt} (h : SyncPair rb sz) (b : Str) (hb : b ≠ []) :
    SyncPair (rbFinalize none { rb with remainder := b })
      (szFinalize none (szBump sz (some b.length))) := by
  obtain ⟨h1, h2, h3⟩ := h
  rcases rb with ⟨out, fr, rem⟩
  rcases sz with ⟨szv, szf⟩
  have h2' : szv = some out.length := h2
  have h3' : szf = fr := h3
  have hbe : b.isEmpty = false := by
    cases b with
    | nil => exact absurd rfl hb
    | cons x xs => rfl
  have hjn : jsT none = false := rfl
  unfold rbFinalize szFinalize szBump rbAppend szAppend
  simp only [hjn, if_false, Bool.false_eq_true, hbe, Bool.not_false, Bool.or_true,
    Bool.true_or, Bool.or_false, Bool.false_or, List.isEmpty_nil, Bool.not_true, if_true,
    h2', h3', Option.map_some, jsAdd]
  refine ⟨rfl, ?_, rfl⟩
  cases fr <;> simp [List.length_append, crlf_length] <;> omega

theorem urlFlushSync {rb : RbSt} {sz : SizeSt} (h : SyncPair rb sz) (content : Str) :
    SyncPair (rbFinalize none { (rbAppend rb [] true) with
        out := (rbAppend rb [] true).out ++ content })
      (szFinalize none (szBump sz (some content.length))) := by
  obtain ⟨h1, h2, h3⟩ := h
  rcases rb with ⟨out, fr, rem⟩
  rcases sz with ⟨szv, szf⟩
  have h1' : rem = [] := h1
  have h2' : szv = some out.length := h2
  have h3' : szf = fr := h3
  subst h1'
  have hjn : jsT none = false := rfl
  unfold rbFinalize szFinalize szBump rbAppend szAppend
  simp only [hjn, if_false, Bool.false_eq_true, List.isEmpty_nil, Bool.not_true,
    Bool.or_false, Bool.false_or, Bool.true_or, if_true, h2', h3', Option.map_some, jsAdd]
  refine ⟨rfl, ?_, rfl⟩
  cases fr <;> simp [List.length_append, crlf_length] <;> omega

theorem pairFin (bnd : Option Str) (r1 : Except Unit RbSt) (r2 : Except Unit SizeSt)
    (h : ∃ (rb1 : RbSt) (sz1 : SizeSt), r1 = .ok rb1 ∧ r2 = .ok sz1 ∧ SyncPair rb1 sz1) :
    ∃ (rbf : RbSt) (szf : SizeSt),
      (match r1 with
       | .error e => Except.error e
       | .ok st => Except.ok (rbFinalize bnd st)) = .ok rbf ∧
      (match r2 with
       | .error e => Except.error e
       | .ok st => Except.ok (szFinalize bnd st)) = .ok szf ∧
      SyncPair rbf szf := by
  obtain ⟨rb1, sz1, e1, e2, hp⟩ := h
  subst e1
  subst e2
  exact ⟨_, _, rfl, rfl, finalizeSync hp bnd⟩

theorem wfNode_inv (fetch enc : Str → Str) (hdr : Option (List Str))
    (ph : Option ParsedHeader) (body bnd : Option Str) (cf : ChildField) (mf : MsgField)
    (sz : Option Nat) (h : wfNode fetch enc (.mk hdr ph body bnd cf mf sz) = true) :
    ∃ p, ph = some p ∧
      (jsT body = true → bnd = none ∧ cf.isUndef = true ∧ jsT p.xUrl = false ∧
        sz = some (body.getD []).length) ∧
      (jsT p.xUrl = true → bnd = none ∧ cf.isUndef = true ∧
        sz = some (encContent fetch enc p).length) ∧
      (∀ cs, cf = ChildField.arr cs → wfList fetch enc cs = true) := by
  cases ph with
  | none =>
    exfalso
    cases cf <;> simp [wfNode] at h
  | some p =>
    cases cf with
    | undef =>
      simp only [wfNode, Bool.and_eq_true, Bool.and_true, Bool.or_eq_true,
        Bool.not_eq_true', beq_iff_eq, Option.isNone_iff_eq_none] at h
      obtain ⟨hA, hB⟩ := h
      refine ⟨p, rfl, ?_, ?_, ?_⟩
      · intro hb
        rcases hA with hA | hA
        · rw [hb] at hA
          cases hA
        · obtain ⟨⟨⟨hbn, -⟩, hnu⟩, hszeq⟩ := hA
          exact ⟨hbn, rfl, by simpa using hnu, hszeq⟩
      · intro hu
        rcases hB with hB | hB
        · rw [hu] at hB
          cases hB
        · obtain ⟨⟨hbn, -⟩, hszeq⟩ := hB
          exact ⟨hbn, rfl, hszeq⟩
      · intro cs hcs
        cases hcs
    | arr cs0 =>
      simp only [wfNode, Bool.and_eq_true, Bool.or_eq_true, Bool.not_eq_true',
        beq_iff_eq, Option.isNone_iff_eq_none] at h
      obtain ⟨⟨hA, hB⟩, hC⟩ := h
      refine ⟨p, rfl, ?_, ?_, ?_⟩
      · intro hb
        rcases hA with hA | hA
        · rw [hb] at hA
          cases hA
        · obtain ⟨⟨⟨-, hcu⟩, -⟩, -⟩ := hA
          simp [ChildField.isUndef] at hcu
      · intro hu
        rcases hB with hB | hB
        · rw [hu] at hB
          cases hB
        · obtain ⟨⟨-, hcu⟩, -⟩ := hB
          simp [ChildField.isUndef] at hcu
      · intro cs hcs
        cases hcs
        exact hC

theorem wfList_cons_inv (fetch enc : Str → Str) (c : MimeNode) (rest : MimeList)
    (h : wfList fetch enc (.cons c rest) = true) :
    wfNode fetch enc c = true ∧ wfList fetch enc rest = true := by
  simpa only [wfList, Bool.and_eq_true] using h

mutual

theorem walkSync (fetch enc : Str → Str) (hdrOn : Bool) (n : MimeNode)
    (hwf : wfNode fetch enc n = true) (rb : RbSt) (sz : SizeSt) (h : SyncPair rb sz) :
    ∃ (rb1 : RbSt) (sz1 : SizeSt),
      rebuildWalk fetch enc hdrOn n rb = Except.ok rb1 ∧
      sizeWalk hdrOn n sz = Except.ok sz1 ∧ SyncPair rb1 sz1 := by
  match n with
  | .mk hdr ph body bnd cf mf sz0 =>
    obtain ⟨p, hph, hbody, hurl, hch⟩ :=
      wfNode_inv fetch enc hdr ph body bnd cf mf sz0 hwf
    subst hph
    have h0 : SyncPair
        (if hdrOn then rbAppend rb (joinCRLF (filterHeaders hdr) ++ strLit "\r\n") false else rb)
        (if hdrOn then szAppend sz (joinCRLF (filterHeaders hdr) ++ strLit "\r\n") false else sz) := by
      by_cases hh : hdrOn = true
      · simp only [hh, if_true]
        exact appendSync h _ _
      · rw [Bool.not_eq_true] at hh
        simp only [hh, Bool.false_eq_true, if_false]
        exact h
    have hjn : jsT none = false := rfl
    by_cases hb : jsT body = true
    · obtain ⟨hbn, hcu, hnu, hszeq⟩ := hbody hb
      subst hbn
      have hcu' : cf = ChildField.undef := by
        cases cf with
        | undef => rfl
        | arr cs0 => simp [ChildField.isUndef] at hcu
      subst hcu'
      obtain ⟨bS, rfl⟩ : ∃ s, body = some s := by
        cases body with
        | none => simp [jsT] at hb
        | some s => exact ⟨s, rfl⟩
      have hbne : bS ≠ [] := by
        intro hh
        subst hh
        simp [jsT] at hb
      simp only [Option.getD_some] at hszeq
      subst hszeq
      simp only [rebuildWalk, sizeWalk, hb, hnu, hjn, if_true, Bool.false_eq_true,
        if_false, Option.getD_some]
      exact ⟨_, _, rfl, rfl, bodyFlushSync h0 bS hbne⟩
    · rw [Bool.not_eq_true] at hb
      have hgd : body.getD [] = [] := jsT_false_getD hb
      by_cases hu : jsT p.xUrl = true
      · obtain ⟨hbn, hcu, hszeq⟩ := hurl hu
        subst hbn
        have hcu' : cf = ChildField.undef := by
          cases cf with
          | undef => rfl
          | arr cs0 => simp [ChildField.isUndef] at hcu
        subst hcu'
        subst hszeq
        simp only [rebuildWalk, sizeWalk, hb, hu, hjn, if_true, Bool.false_eq_true,
          if_false, hgd]
        rw [updEq _ h0.1]
        simp only [lengthLimiter, List.take_length]
        exact ⟨_, _, rfl, rfl, urlFlushSync h0 _⟩
      · rw [Bool.not_eq_true] at hu
        by_cases hbd : jsT bnd = true
        · cases hcf : cf with
          | undef =>
            simp only [rebuildWalk, sizeWalk, hb, hu, hbd, hgd, if_true,
              Bool.false_eq_true, if_false]
            rw [updEq _ h0.1]
            exact ⟨_, _, rfl, rfl, finalizeSync (appendSync h0 _ _) bnd⟩
          | arr cs0 =>
            simp only [rebuildWalk, sizeWalk, hb, hu, hbd, hgd, if_true,
              Bool.false_eq_true, if_false]
            rw [updEq _ h0.1]
            exact pairFin bnd _ _
              (walkSyncChildren fetch enc bnd cs0 (hch cs0 hcf) _ _ (appendSync h0 _ _))
        · rw [Bool.not_eq_true] at hbd
          cases hcf : cf with
          | undef =>
            simp only [rebuildWalk, sizeWalk, hb, hu, hbd, hgd, if_true,
              Bool.false_eq_true, if_false]
            rw [updEq _ h0.1]
            exact ⟨_, _, rfl, rfl, finalizeSync h0 bnd⟩
          | arr cs0 =>
            simp only [rebuildWalk, sizeWalk, hb, hu, hbd, hgd, if_true,
              Bool.false_eq_true, if_false]
            rw [updEq _ h0.1]
            exact pairFin bnd _ _
              (walkSyncChildren fetch enc bnd cs0 (hch cs0 hcf) _ _ h0)
termination_by sizeOf n
decreasing_by
  all_goals first
    | (simp [hcf]
       omega)
    | (simp
       omega)

theorem walkSyncChildren (fetch enc : Str → Str) (bnd : Option Str) (cs : MimeList)
    (hwf : wfList fetch enc cs = true) (rb : RbSt) (sz : SizeSt) (h : SyncPair rb sz) :
    ∃ (rb1 : RbSt) (sz1 : SizeSt),
      rebuildWalkChildren fetch enc bnd cs rb = Except.ok rb1 ∧
      sizeWalkChildren bnd cs sz = Except.ok sz1 ∧ SyncPair rb1 sz1 := by
  match cs with
  | .nil => exact ⟨rb, sz, rfl, rfl, h⟩
  | .cons c rest =>
    obtain ⟨hwc, hwr⟩ := wfList_cons_inv fetch enc c rest hwf
    obtain ⟨rb1, sz1, e1, e2, h1⟩ := walkSync fetch enc true c hwc rb sz h
    have h2 : SyncPair (sibSepRb bnd rest rb1) (sibSepSz bnd rest sz1) := by
      unfold sibSepRb sibSepSz
      cases rest with
      | nil => exact h1
      | cons x xs => exact appendSync h1 _ _
    obtain ⟨rb2, sz2, e3, e4, h3⟩ := walkSyncChildren fetch enc bnd rest hwr _ _ h2
    refine ⟨rb2, sz2, ?_, ?_, h3⟩
    · rw [rebuildWalkChildren, e1]
      exact e3
    · rw [sizeWalkChildren, e2]
      exact e4
termination_by sizeOf cs
decreasing_by
  all_goals first
    | (simp
       omega)
    | simp

end

/-- C1 (amended): for every tree satisfying the strengthened data-model
invariants (`wfNode`: every node carries a `parsedHeader`; a node holding
content — truthy `body` or attachment marker — has no boundary and no
`childNodes` array and declares `size` as its exact content byte length, the
external pipeline modeled as yielding exactly the declared bytes) and every
`textOnly` flag, `getSize` returns exactly the number of bytes `rebuild`
emits on successful completion. The literal §3 invariant is not enough: a
node with a truthy `body`, a `boundary` and an empty `childNodes` array
satisfies it yet breaks the equality (see the counterexample). -/
theorem c1_size_matches_rebuild (fetch enc : Str → Str) (n : MimeNode) (textOnly : Bool)
    (hwf : wfNode fetch enc n = true) :
    ∃ s : Str, rebuildBytes fetch enc n textOnly = Except.ok s ∧
      getSize n textOnly = Except.ok (some s.length) := by
  obtain ⟨rb1, sz1, e1, e2, hp⟩ := walkSync fetch enc (!textOnly) n hwf
    ⟨[], true, []⟩ ⟨some 0, true⟩ ⟨rfl, rfl, rfl⟩
  refine ⟨rb1.out, ?_, ?_⟩
  · simp [rebuildBytes, e1, Except.map]
  · have hs := hp.2.1
    simp [getSize, e2, Except.map, hs]

theorem c1_witness :
    wfNode cFetch cEnc c1Tree = true ∧
    ∃ s : Str, rebuildBytes cFetch cEnc c1Tree false = Except.ok s ∧
      getSize c1Tree false = Except.ok (some s.length) :=
  ⟨by decide, c1_size_matches_rebuild cFetch cEnc c1Tree false (by decide)⟩

theorem c1_counterexample :
    getSize mixedBodyBoundaryNode false = Except.ok (some 24) ∧
    rebuildBytes cFetch cEnc mixedBodyBoundaryNode false =
      Except.ok (strLit "H: v\r\n\r\nAB--b\r\n--b--\r\n") ∧
    (strLit "H: v\r\n\r\nAB--b\r\n--b--\r\n").length = 22 ∧
    mixedBodyBoundaryNode.size = some ((mixedBodyBoundaryNode.body.getD []).length) ∧
    (24 : Nat) ≠ 22 :=
  ⟨rfl, rfl, by decide, rfl, by decide⟩
